import Mathlib

/-!
Shallow embedding of `src/scripts/process.py`, the EPUB article-extraction
script.  Python strings are modelled as `List Char` (a Python 3 string is a
sequence of code points).  Regular-expression operations of the script are
embedded as explicit structural scans over character lists, and the file
system registry used for slug uniqueness is modelled as the list of slugs
already written in this run.  All definitions are structurally recursive so
that concrete runs evaluate inside the kernel.
-/

set_option maxRecDepth 100000

namespace Process

/-- Lower-case every character (model of Python `str.lower()` on the ASCII
strings the script manipulates). -/
def toLowerSeq (l : List Char) : List Char := l.map Char.toLower

/-- Model of Python `str.strip()`: drop whitespace from both ends. -/
def stripWs (l : List Char) : List Char :=
  ((l.dropWhile Char.isWhitespace).reverse.dropWhile Char.isWhitespace).reverse

/-- Model of `needle in haystack` for Python strings: contiguous
subsequence test. -/
def containsSeq (p : List Char) : List Char → Bool
  | [] => p.isEmpty
  | c :: rest => p.isPrefixOf (c :: rest) || containsSeq p rest

/-- Model of `re.sub(r'\s+', ' ', s)`: every maximal whitespace run becomes
a single space.  The flag records whether the previous character was part of
a whitespace run. -/
def collapseWs : List Char → Bool → List Char
  | [], _ => []
  | c :: rest, prev =>
    if c.isWhitespace then
      (if prev then [] else [' ']) ++ collapseWs rest true
    else c :: collapseWs rest false

/-- Model of `re.sub(r'-+', '-', s)`: every run of dashes becomes a single
dash. -/
def collapseDashes : List Char → Bool → List Char
  | [], _ => []
  | c :: rest, prev =>
    if c = '-' then
      (if prev then [] else ['-']) ++ collapseDashes rest true
    else c :: collapseDashes rest false

/-- Strict code-point lexicographic comparison of file names, as used by
Python `sorted` on strings. -/
def nameLt : List Char → List Char → Bool
  | [], [] => false
  | [], _ :: _ => true
  | _ :: _, [] => false
  | a :: as, b :: bs => decide (a.toNat < b.toNat) || (a = b && nameLt as bs)

/-- Decimal digits of `n`, most significant first, computed with enough fuel
to be structurally recursive (model of Python `str(counter)` inside the
f-string `f"{base_slug}-{counter}"`). -/
def natToDecAux : Nat → Nat → List Char
  | 0, _ => []
  | fuel + 1, n =>
    if n < 10 then [Nat.digitChar n]
    else natToDecAux fuel (n / 10) ++ [Nat.digitChar (n % 10)]

/-- Decimal representation of a natural number. -/
def natToDec (n : Nat) : List Char := natToDecAux (n + 1) n

/-- Numeric value of a decimal digit character. -/
def decChar (c : Char) : Nat := c.toNat - 48

/-- Decode a decimal digit string back to a number (used to prove that
`natToDec` is injective). -/
def decodeDec (l : List Char) : Nat := l.foldl (fun a c => 10 * a + decChar c) 0

/-- Candidate slug produced by the collision loop: `f"{base_slug}-{counter}"`. -/
def slugCand (base : List Char) (n : Nat) : List Char := base ++ '-' :: natToDec n

/-- The collision loop of `create_article` (lines 298-302): starting from
`counter`, return the first candidate not already issued.  `fuel` bounds the
search; with fuel `issued.length + 1` a free candidate is always found. -/
def allocGo (issued : List (List Char)) (base : List Char) : Nat → Nat → List Char
  | 0, n => slugCand base n
  | fuel + 1, n =>
    if slugCand base n ∈ issued then allocGo issued base fuel (n + 1)
    else slugCand base n

/-- Slug allocation against the registry of already written article files:
the base slug if free, otherwise the first `base-counter` (counter = 1, 2, …)
that is free. -/
def allocSlug (issued : List (List Char)) (base : List Char) : List Char :=
  if base ∈ issued then allocGo issued base (issued.length + 1) 1 else base

/-- Characters kept by `re.sub(r'[^\w\s-]', '', title)` (ASCII reading of
`\w` and `\s`). -/
def slugChar (c : Char) : Bool :=
  c.isAlphanum || c = '_' || c.isWhitespace || c = '-'

/-- Base slug derivation of `create_article` (lines 294-295): strip
punctuation, trim, spaces to dashes, lower-case, first 50 characters,
collapse dash runs. -/
def slugOf (t : List Char) : List Char :=
  collapseDashes
    (((((stripWs (t.filter slugChar)).map
        (fun c => if c = ' ' then '-' else c)).map Char.toLower).take 50))
    false

/-- Month names of the date regular expressions in `parse_html_file` and
`create_article`. -/
def months : List (List Char) :=
  ["January".data, "February".data, "March".data, "April".data, "May".data,
   "June".data, "July".data, "August".data, "September".data, "October".data,
   "November".data, "December".data]

/-- Match of `202[56]$`. -/
def yearEnd (r : List Char) : Bool := r = "2025".data || r = "2026".data

/-- Match of `\s+202[56]$`. -/
def wsYear (r : List Char) : Bool :=
  let ws := r.takeWhile Char.isWhitespace
  !ws.isEmpty && yearEnd (r.drop ws.length)

/-- Match of `,?\s+202[56]$`. -/
def commaWsYear (r : List Char) : Bool :=
  wsYear r ||
    (match r with
     | ',' :: rest => wsYear rest
     | _ => false)

/-- Ordinal day suffixes of the date regular expression. -/
def ordSuffixes : List (List Char) := ["st".data, "nd".data, "rd".data, "th".data]

/-- Match of `(st|nd|rd|th)?,?\s+202[56]$`. -/
def suffCommaWsYear (r : List Char) : Bool :=
  commaWsYear r ||
    ordSuffixes.any (fun sfx => sfx.isPrefixOf r && commaWsYear (r.drop sfx.length))

/-- Match of `\d{1,2}(st|nd|rd|th)?,?\s+202[56]$` (greedy one-or-two digits
with backtracking, expressed as a disjunction). -/
def digitsYear (r : List Char) : Bool :=
  match r with
  | d1 :: rest =>
    d1.isDigit &&
      ((match rest with
        | d2 :: rest2 => d2.isDigit && suffCommaWsYear rest2
        | [] => false) ||
       suffCommaWsYear rest)
  | [] => false

/-- Model of the heading-skip test of `parse_html_file` (line 161):
`re.match(r'^(January|…|December)\s+\d{1,2}(st|nd|rd|th)?,?\s+202[56]$', t)`. -/
def matchFullDate (t : List Char) : Bool :=
  months.any (fun m =>
    m.isPrefixOf t &&
      (let r := t.drop m.length
       let ws := r.takeWhile Char.isWhitespace
       !ws.isEmpty && digitsYear (r.drop ws.length)))

/-- Model of the title test of `create_article` (line 277):
`re.match(r'^(January|…|December)\s+\d{1,2}', t)`. -/
def startsWithDate (t : List Char) : Bool :=
  months.any (fun m =>
    m.isPrefixOf t &&
      (let r := t.drop m.length
       let ws := r.takeWhile Char.isWhitespace
       !ws.isEmpty &&
         (match r.drop ws.length with
          | d :: _ => d.isDigit
          | [] => false)))

/-- Model of `re.search(r'<p>([^<]+)</p>', content)` returning group 1 of the
leftmost match: scan for `<p>`, take the following non-`<` run, and require a
closing `</p>`. -/
def findFirstP : List Char → Option (List Char)
  | [] => none
  | c :: rest =>
    if c = '<' && ("p>".data.isPrefixOf rest) then
      let seg := (rest.drop 2).takeWhile (fun x => x ≠ '<')
      if !seg.isEmpty && ("</p>".data.isPrefixOf ((rest.drop 2).drop seg.length)) then
        some seg
      else findFirstP rest
    else findFirstP rest

/-- Text after the last `'|'`, the model of `title.split('|')[-1]`. -/
def lastPipeSegment (t : List Char) : List Char :=
  (t.reverse.takeWhile (fun c => c ≠ '|')).reverse

/-- Title preprocessing of `create_article` (lines 267-285): collapse
whitespace and trim, keep only the segment after the last pipe, and when the
title is a date, replace it by the first paragraph of the content when that
paragraph is long enough and does not start with a digit. -/
def cleanTitle (rawTitle content : List Char) : List Char :=
  let t1 := stripWs (collapseWs rawTitle false)
  let t2 := if '|' ∈ t1 then stripWs (lastPipeSegment t1) else t1
  if startsWithDate t2 then
    match findFirstP content with
    | some seg =>
      let pt := stripWs seg
      if 10 < pt.length &&
          (match pt with
           | c :: _ => !c.isDigit
           | [] => false) then pt
      else t2
    | none => t2
  else t2

/-- Title truncation of `create_article` (lines 287-288). -/
def truncateTitle (t : List Char) : List Char :=
  if 150 < t.length then t.take 147 ++ "...".data else t

/-- The record returned by `create_article`.  `src` and `hidx` are provenance
instrumentation (source file name and index of the originating heading among
the document's headings); they play no role in any branch of the model. -/
structure Article where
  title : List Char
  slug : List Char
  path : List Char
  sec : List Char
  src : List Char
  hidx : Nat
deriving DecidableEq

/-- Model of `create_article` (lines 264-396): clean and truncate the title,
reject titles shorter than 5 characters, derive the slug, disambiguate it
against the registry of already written slugs, and record the written file in
the registry.  The wall-clock date and the rendered HTML file are external
effects outside the model. -/
def createArticle (rawTitle sec content : List Char) (issued : List (List Char))
    (src : List Char) (hidx : Nat) : Option (Article × List (List Char)) :=
  let t := truncateTitle (cleanTitle rawTitle content)
  if t.length < 5 then none
  else
    let slug := allocSlug issued (slugOf t)
    some ({ title := t, slug := slug,
            path := ("articles/".data) ++ slug ++ (".html".data),
            sec := sec, src := src, hidx := hidx }, issued ++ [slug])

/-- A node of the parsed document body.  The script walks the BeautifulSoup
sibling chain of the body, so a document is modelled as the flat sequence of
the body's children: `txt` is a `NavigableString` (its raw text), `elem` is a
tag carrying its name, its visible text (`get_text(strip=True)`), and its
serialized HTML (`str(tag)`); parsing raw HTML into this shape is delegated
to the external loader. -/
inductive Node where
  | txt (s : List Char) : Node
  | elem (name text html : List Char) : Node
deriving DecidableEq

/-- Quote characters accepted by the `src=["\']` patterns. -/
def isQuote (c : Char) : Bool := c = '"' || c = Char.ofNat 39

/-- Match of `src=["\']static_images/` at the head of the list (length 19). -/
def imgPat0 (l : List Char) : Bool :=
  ("src=".data.isPrefixOf l) && (l.get? 4).any isQuote &&
    ("static_images/".data.isPrefixOf (l.drop 5))

/-- Match of `src=["\']../static_images/` at the head of the list: the two
dots are regex wildcards matching any character except a newline
(length 22). -/
def imgPat1 (l : List Char) : Bool :=
  ("src=".data.isPrefixOf l) && (l.get? 4).any isQuote &&
    (l.get? 5).any (fun c => c ≠ '\n') && (l.get? 6).any (fun c => c ≠ '\n') &&
    l.get? 7 = some '/' && ("static_images/".data.isPrefixOf (l.drop 8))

/-- Match of `src=["\']../../static_images/` at the head of the list: the four
dots are regex wildcards (length 25). -/
def imgPat2 (l : List Char) : Bool :=
  ("src=".data.isPrefixOf l) && (l.get? 4).any isQuote &&
    (l.get? 5).any (fun c => c ≠ '\n') && (l.get? 6).any (fun c => c ≠ '\n') &&
    l.get? 7 = some '/' &&
    (l.get? 8).any (fun c => c ≠ '\n') && (l.get? 9).any (fun c => c ≠ '\n') &&
    l.get? 10 = some '/' && ("static_images/".data.isPrefixOf (l.drop 11))

/-- Replacement text `src="/images/` of the three substitutions. -/
def imgRepl : List Char := "src=\"/images/".data

/-- One left-to-right non-overlapping substitution pass, as performed by
`re.sub`: `pat` matches a fixed-length pattern at the head, `len` is that
length, scanning resumes after the replaced region.  Fuel makes the recursion
structural; `len` is at least 1 for every pattern used. -/
def reSubAux (pat : List Char → Bool) (len : Nat) : Nat → List Char → List Char
  | 0, l => l
  | _ + 1, [] => []
  | fuel + 1, c :: rest =>
    if pat (c :: rest) then imgRepl ++ reSubAux pat len fuel ((c :: rest).drop len)
    else c :: reSubAux pat len fuel rest

/-- Model of the three image-path substitutions of
`collect_content_until_next_heading` (lines 255-257), applied in program
order. -/
def fixImagePaths (l : List Char) : List Char :=
  let l0 := reSubAux imgPat0 19 (l.length + 1) l
  let l1 := reSubAux imgPat1 22 (l0.length + 1) l0
  reSubAux imgPat2 25 (l1.length + 1) l1

/-- Model of the removal of `script` and `style` tags (lines 138-139). -/
def removeScriptStyle (ns : List Node) : List Node :=
  ns.filter (fun n =>
    match n with
    | .elem name _ _ => !(name = "script".data || name = "style".data)
    | .txt _ => true)

/-- Indices of the `h1`/`h2` elements, in document order (model of
`body.find_all(['h1', 'h2'])`). -/
def headingIdxs (ns : List Node) : List Nat :=
  (ns.enum.filter (fun p =>
    match p.2 with
    | .elem name _ _ => name = "h1".data || name = "h2".data
    | .txt _ => false)).map (fun p => p.1)

/-- Visible text of the node at index `p` (empty for a text node or out of
range; only heading elements are queried). -/
def headingTextAt (ns : List Node) (p : Nat) : List Char :=
  match ns.get? p with
  | some (.elem _ text _) => text
  | _ => []

/-- First configured section whose lower-cased name occurs in the lower-cased
text (model of the inner loops of `find_section_for_heading`; the dict of
`extract_toc_structure` iterates in insertion order). -/
def firstMatchingSec (secs : List (List Char)) (text : List Char) : Option (List Char) :=
  secs.find? (fun sec => containsSeq (toLowerSeq sec) (toLowerSeq text))

/-- Sibling walk of `find_section_for_heading` (lines 184-197): up to ten
steps through the previous siblings of the heading, testing only
`NavigableString` nodes; reaching the front of the body stops the walk. -/
def sectionFromSiblings (ns : List Node) (secs : List (List Char)) :
    Nat → Nat → Option (List Char)
  | 0, _ => none
  | fuel + 1, j =>
    if j = 0 then none
    else
      match ns.get? (j - 1) with
      | some (.txt s) =>
        match firstMatchingSec secs (stripWs s) with
        | some sec => some sec
        | none => sectionFromSiblings ns secs fuel (j - 1)
      | _ => sectionFromSiblings ns secs fuel (j - 1)

/-- Model of `find_section_for_heading` (lines 181-210): search the previous
siblings, then fall back to a `Section | Title` split of the heading's own
text, and finally return the empty string. -/
def findSection (ns : List Node) (secs : List (List Char)) (p : Nat) : List Char :=
  match sectionFromSiblings ns secs 10 p with
  | some sec => sec
  | none =>
    let t := headingTextAt ns p
    if '|' ∈ t then
      match firstMatchingSec secs (stripWs (t.takeWhile (fun c => c ≠ '|'))) with
      | some sec => sec
      | none => []
    else []

/-- Nodes strictly between the heading at `p` and the next heading (or the
end of the body). -/
def betweenNodes (ns : List Node) (p : Nat) (nextP : Option Nat) : List Node :=
  match nextP with
  | some q => (ns.drop (p + 1)).take (q - p - 1)
  | none => ns.drop (p + 1)

/-- Per-node rendering of `collect_content_until_next_heading` (lines
240-260): `nav`/`header` elements are skipped, nonempty text nodes are
wrapped in `<p>…</p>`, other elements contribute their HTML with image paths
rewritten. -/
def renderNode : Node → Option (List Char)
  | .txt s =>
    let t := stripWs s
    if t.isEmpty then none else some (("<p>".data) ++ t ++ ("</p>".data))
  | .elem name _ html =>
    if name = "nav".data || name = "header".data then none
    else some (fixImagePaths html)

/-- Model of `collect_content_until_next_heading`: render the nodes between
the two headings and join them with newlines. -/
def collectContent (ns : List Node) (p : Nat) (nextP : Option Nat) : List Char :=
  List.intercalate ['\n'] ((betweenNodes ns p nextP).filterMap renderNode)

/-- The heading loop of `parse_html_file` (lines 152-177) over the remaining
`(heading index, node position)` pairs: skip headings with short text or a
pure date text, collect the content up to the next heading, and when it is
longer than 200 characters create the article, threading the slug registry. -/
def parseLoop (secs : List (List Char)) (ns : List Node) (src : List Char) :
    List (Nat × Nat) → List (List Char) → List Article × List (List Char)
  | [], issued => ([], issued)
  | (i, p) :: rest, issued =>
    let t := headingTextAt ns p
    if t.length < 5 then parseLoop secs ns src rest issued
    else if matchFullDate t then parseLoop secs ns src rest issued
    else
      let content := collectContent ns p (rest.head?.map (fun q => q.2))
      if 200 < content.length then
        match createArticle t (findSection ns secs p) content issued src i with
        | some (a, issued2) =>
          let r := parseLoop secs ns src rest issued2
          (a :: r.1, r.2)
        | none => parseLoop secs ns src rest issued
      else parseLoop secs ns src rest issued

/-- Model of `parse_html_file` (lines 131-179) on a document that has a body:
drop `script`/`style` nodes and run the heading loop. -/
def parseHtmlFile (secs : List (List Char)) (body : List Node)
    (issued : List (List Char)) (src : List Char) :
    List Article × List (List Char) :=
  let ns := removeScriptStyle body
  parseLoop secs ns src (headingIdxs ns).enum issued

/-- A file of the extracted archive: its bare name, its raw text (the string
read in `main`, used for the substring tests), and its parsed body — `none`
when the document has no `body` element. -/
structure EpubFile where
  name : List Char
  raw : List Char
  body : Option (List Node)
deriving DecidableEq

/-- The package handed to `main`: the spine (the package-declared reading
order of document names, which the script never reads), the link texts of the
table-of-contents file (`none` when no `nav.xhtml`/`toc.xhtml`/`book_toc.html`
exists), and the files of the archive directory. -/
structure PackageInput where
  spine : List (List Char)
  toc : Option (List (List Char))
  files : List EpubFile
deriving DecidableEq

/-- Model of `extract_toc_structure` (lines 96-129): with no toc file the
section map is empty; otherwise every nonempty link text shorter than 100
characters that does not start with `http` is added once, in order of first
appearance. -/
def extractTocStructure : Option (List (List Char)) → List (List Char)
  | none => []
  | some links =>
    links.foldl
      (fun acc l =>
        let t := stripWs l
        if !t.isEmpty ∧ t.length < 100 ∧ ¬ ("http".data.isPrefixOf t) ∧ t ∉ acc
        then acc ++ [t] else acc)
      []

/-- Suffix test on character lists (model of `str.endswith`). -/
def endsWithSeq (sfx l : List Char) : Bool := sfx.reverse.isPrefixOf l.reverse

/-- File selection of `main` (lines 40-42): an HTML extension and no
`nav`/`cover`/`copyright` fragment in the lower-cased name. -/
def eligibleFile (f : EpubFile) : Bool :=
  (endsWithSeq (".html".data) f.name || endsWithSeq (".xhtml".data) f.name ||
      endsWithSeq (".htm".data) f.name) &&
    !(containsSeq ("nav".data) (toLowerSeq f.name) ||
      containsSeq ("cover".data) (toLowerSeq f.name) ||
      containsSeq ("copyright".data) (toLowerSeq f.name))

/-- Stable insertion of a file into a name-sorted list: the file goes in
front of the first entry whose name is not strictly smaller. -/
def insertByName (f : EpubFile) : List EpubFile → List EpubFile
  | [] => [f]
  | g :: rest =>
    if nameLt g.name f.name then g :: insertByName f rest else f :: g :: rest

/-- Stable sort of the files by name, the model of `sorted(files)` in the
directory walk of `main` (line 39). -/
def sortFiles : List EpubFile → List EpubFile
  | [] => []
  | f :: rest => insertByName f (sortFiles rest)

/-- The eligible files in processing order. -/
def orderedFiles (inp : PackageInput) : List EpubFile :=
  sortFiles (inp.files.filter eligibleFile)

/-- Content gate of `main` (line 55): a document is processed only when its
raw text mentions `The Economist` or `economist.com`. -/
def economistCheck (raw : List Char) : Bool :=
  containsSeq ("The Economist".data) raw || containsSeq ("economist.com".data) raw

/-- The file loop of `main` (lines 50-62): process the files in order,
skipping files that fail the content gate or have no body, threading the slug
registry through the run. -/
def runFiles (secs : List (List Char)) :
    List EpubFile → List (List Char) → List Article × List (List Char)
  | [], issued => ([], issued)
  | f :: rest, issued =>
    if economistCheck f.raw then
      match f.body with
      | none => runFiles secs rest issued
      | some b =>
        let r1 := parseHtmlFile secs b issued f.name
        let r2 := runFiles secs rest r1.2
        (r1.1 ++ r2.1, r2.2)
    else runFiles secs rest issued

/-- Every article extracted by the run, in emission order, starting from an
empty output directory. -/
def allArticles (inp : PackageInput) : List Article :=
  (runFiles (extractTocStructure inp.toc) (orderedFiles inp) []).1

/-- Slug deduplication of `main` (lines 71-76): keep the first article of
each slug, preserving order. -/
def dedupBySlug : List Article → List (List Char) → List Article
  | [], _ => []
  | a :: rest, seen =>
    if a.slug ∈ seen then dedupBySlug rest seen
    else a :: dedupBySlug rest (a.slug :: seen)

/-- Model of `main` (lines 10-85): extract the articles; with none the run
aborts (`sys.exit(1)`), otherwise the slug-deduplicated article list is handed
to the rendering stage. -/
def mainResult (inp : PackageInput) : Except Unit (List Article) :=
  let arts := allArticles inp
  if arts.isEmpty then Except.error () else Except.ok (dedupBySlug arts [])

/-- Sections of the articles of a successful run, normalized by trim and
lower-case (observer used to state section claims). -/
def okSections (inp : PackageInput) : Option (List (List Char)) :=
  match mainResult inp with
  | Except.ok arts => some (arts.map (fun a => toLowerSeq (stripWs a.sec)))
  | Except.error _ => none

/-- Number of articles of a successful run (observer). -/
def okCount (inp : PackageInput) : Option Nat :=
  match mainResult inp with
  | Except.ok arts => some arts.length
  | Except.error _ => none

/-- Modelled from the spec: HeaderComposer.  No header-composition code is
present under `src` (the script stores section and title separately), so the
five ordered rules of the specification's §4.4 are embedded directly: empty
rubric, case-insensitive equality, pipe-delimited prefix equality,
case-insensitive prefix, and plain concatenation. -/
def composeHeader (sec rubric : List Char) : List Char :=
  if rubric.isEmpty then sec
  else if toLowerSeq rubric = toLowerSeq sec then sec
  else if '|' ∈ rubric ∧
      toLowerSeq (stripWs (rubric.takeWhile (fun c => c ≠ '|'))) = toLowerSeq sec then
    rubric
  else if (toLowerSeq sec).isPrefixOf (toLowerSeq rubric) then rubric
  else sec ++ (" | ".data) ++ rubric

/-- A body element whose serialized HTML is 211 characters long, enough to
pass the 200-character content gate. -/
def longHtml : List Char := ("<div>".data) ++ List.replicate 200 'a' ++ ("</div>".data)

/-- A generic long content node. -/
def contentNode : Node := Node.elem ("div".data) (List.replicate 200 'a') longHtml

/-- Heading element constructor for the concrete runs. -/
def h1 (t : List Char) : Node := Node.elem ("h1".data) t (("<h1>".data) ++ t ++ ("</h1>".data))

/-- Raw text passing the content gate. -/
def econRaw : List Char := "The Economist".data

/-- Concrete file `a.html` with one article. -/
def fileA : EpubFile :=
  { name := "a.html".data, raw := econRaw,
    body := some [h1 ("Alpha story headline".data), contentNode] }

/-- Concrete file `b.html` with one article. -/
def fileB : EpubFile :=
  { name := "b.html".data, raw := econRaw,
    body := some [h1 ("Bravo story headline".data), contentNode] }

/-- Package whose declared spine order (`b.html` before `a.html`) disagrees
with the sorted file-name order; it has no toc file. -/
def c1pkg : PackageInput :=
  { spine := ["b.html".data, "a.html".data], toc := none, files := [fileB, fileA] }

/-- File with two identically titled articles. -/
def gbFile : EpubFile :=
  { name := "g.html".data, raw := econRaw,
    body := some [h1 ("Greenback danger".data), contentNode,
                  h1 ("Greenback danger".data), contentNode] }

/-- Package for the duplicate-title slug run. -/
def gbPkg : PackageInput := { spine := [], toc := none, files := [gbFile] }

/-- Document A of the section-continuity scenario: a `Business` text marker
precedes its heading. -/
def c3fileA : EpubFile :=
  { name := "a.html".data, raw := econRaw,
    body := some [Node.txt ("Business".data), h1 ("Alpha story headline".data), contentNode] }

/-- Document B of the section-continuity scenario: no section marker at all
before its first heading. -/
def c3fileB : EpubFile :=
  { name := "b.html".data, raw := econRaw,
    body := some [h1 ("Bravo story headline".data), contentNode] }

/-- Package for the section-continuity scenario; the toc declares the
`Business` section. -/
def c3pkg : PackageInput :=
  { spine := [], toc := some [("Business".data)], files := [c3fileA, c3fileB] }

/-- File whose article sits in the `Obituary` section. -/
def c4file : EpubFile :=
  { name := "o.html".data, raw := econRaw,
    body := some [Node.txt ("Obituary".data), h1 ("Remembering a great editor".data), contentNode] }

/-- Package for the allow-list scenario. -/
def c4pkg : PackageInput :=
  { spine := [], toc := some [("Obituary".data)], files := [c4file] }

/-- The allow-list named by the claim (`{leaders, briefing, china, …}`),
normalized. -/
def allowListExample : List (List Char) := ["leaders".data, "briefing".data, "china".data]

/-- File whose raw text mentions neither `The Economist` nor `economist.com`. -/
def c10bad : EpubFile :=
  { name := "z.html".data, raw := "nothing relevant here".data,
    body := some [h1 ("Juicy forbidden headline".data), contentNode] }

/-- Package containing one gated-out file next to a normal one. -/
def c10pkg : PackageInput := { spine := [], toc := none, files := [fileA, c10bad] }

/-- Body of the single-document witness run. -/
def c5body : List Node := [h1 ("Hello world title".data), contentNode]

/-- The article the witness run produces. -/
def c5art : Article :=
  { title := "Hello world title".data, slug := "hello-world-title".data,
    path := "articles/hello-world-title.html".data, sec := [],
    src := "w.html".data, hidx := 0 }

/-- A 160-character raw title, exceeding the 150-character limit. -/
def longTitle : List Char := List.replicate 160 'x'

/-- The article that `c10pkg` extracts from `a.html`. -/
def c10art : Article :=
  { title := "Alpha story headline".data, slug := "alpha-story-headline".data,
    path := "articles/alpha-story-headline.html".data, sec := [],
    src := "a.html".data, hidx := 0 }

/-- Position of a document name in the declared spine. -/
def spinePos (inp : PackageInput) (n : List Char) : Nat :=
  inp.spine.findIdx (fun m => m = n)

/-- C1 counterexample: in the package `c1pkg` the spine declares `b.html`
before `a.html`, yet the emitted articles come out in sorted file-name order
`a.html, b.html`; the emission sequence is not ordered by spine position, so
the claimed invariant fails on this valid package. -/
theorem c1_spine_order_counterexample :
    (allArticles c1pkg).map (fun a => a.src) = [("a.html".data), ("b.html".data)] ∧
    c1pkg.spine = [("b.html".data), ("a.html".data)] ∧
    ¬ (allArticles c1pkg).Pairwise
        (fun a b => spinePos c1pkg a.src ≤ spinePos c1pkg b.src) := by
  refine ⟨by decide, by decide, by decide⟩

/-- C3 counterexample: document A's marker sets its article's section to
`Business`, but document B, which has no section marker before its first
title, gets the empty section rather than the carried-over `Business` — no
section state is threaded across documents. -/
theorem c3_section_continuity_counterexample :
    (allArticles c3pkg).map (fun a => (a.src, a.sec)) =
      [(("a.html".data), ("Business".data)), (("b.html".data), ([] : List Char))] ∧
    ([] : List Char) ≠ ("Business".data) := by
  refine ⟨by decide, by decide⟩

/-- C4 counterexample: the run of `c4pkg` succeeds and emits an article whose
normalized section `obituary` is not on the allow-list named by the claim; no
section filtering happens. -/
theorem c4_allow_filter_counterexample :
    okSections c4pkg = some [("obituary".data)] ∧
    ("obituary".data) ∉ allowListExample := by
  refine ⟨by decide, by decide⟩

/-- C6 counterexample: with the specification's five rules, the rubric
`China: a special report` case-insensitively starts with the section `China`,
so rule 4 returns the rubric unchanged — not the claimed
`China | China: a special report`. -/
theorem c6_header_example_counterexample :
    composeHeader ("China".data) ("China: a special report".data) ≠
      ("China | China: a special report".data) := by
  decide

/-- C6 amended: rule 4 yields the rubric unchanged on the China example
(which therefore does not collapse to `China` either), the Leaders starts-with
and equality examples behave as stated, and a rubric unrelated to the section
is concatenated with a pipe. -/
theorem c6_header_rules :
    composeHeader ("China".data) ("China: a special report".data) =
      ("China: a special report".data) ∧
    composeHeader ("China".data) ("China: a special report".data) ≠ ("China".data) ∧
    composeHeader ("Leaders".data) ("Leaders: the age of a treacherous border".data) =
      ("Leaders: the age of a treacherous border".data) ∧
    composeHeader ("Leaders".data) ("Leaders".data) = ("Leaders".data) ∧
    composeHeader ("Business".data) ("On the money".data) =
      ("Business | On the money".data) := by
  refine ⟨by decide, by decide, by decide, by decide, by decide⟩

/-- C7 counterexample: a grandparent-relative `static_images` reference is
rewritten to `/images/photo.jpg`, but `images/photo.jpg` is left untouched;
the two references do not rewrite to one identical canonical form. -/
theorem c7_asset_rewrite_counterexample :
    fixImagePaths ("src=\"../../static_images/photo.jpg\"".data) =
      ("src=\"/images/photo.jpg\"".data) ∧
    fixImagePaths ("src=\"images/photo.jpg\"".data) = ("src=\"images/photo.jpg\"".data) ∧
    fixImagePaths ("src=\"../../static_images/photo.jpg\"".data) ≠
      fixImagePaths ("src=\"images/photo.jpg\"".data) := by
  refine ⟨by decide, by decide, by decide⟩

/-- C7 amended: only `src` references under a `static_images` directory at
the three hard-coded relative depths are rewritten, all to `/images/` plus
the remaining path; the rewrite ignores the file extension (a `.txt`
reference is rewritten too), and other references such as
`images/photo.jpg` are left untouched. -/
theorem c7_asset_rewrite_behavior :
    fixImagePaths ("src=\"static_images/photo.jpg\"".data) =
      ("src=\"/images/photo.jpg\"".data) ∧
    fixImagePaths ("src=\"../static_images/photo.jpg\"".data) =
      ("src=\"/images/photo.jpg\"".data) ∧
    fixImagePaths ("src=\"../../static_images/photo.jpg\"".data) =
      ("src=\"/images/photo.jpg\"".data) ∧
    fixImagePaths ("src=\"static_images/notes.txt\"".data) =
      ("src=\"/images/notes.txt\"".data) ∧
    fixImagePaths ("src=\"images/photo.jpg\"".data) =
      ("src=\"images/photo.jpg\"".data) := by
  refine ⟨by decide, by decide, by decide, by decide, by decide⟩

/-- C8 counterexample: `c1pkg` has no package-description/toc file, so the
resolver returns the empty section map, yet the run does not abort — it
succeeds with two articles, because the script only aborts when zero articles
are extracted. -/
theorem c8_missing_toc_counterexample :
    c1pkg.toc = none ∧ extractTocStructure c1pkg.toc = [] ∧ okCount c1pkg = some 2 := by
  refine ⟨by decide, by decide, by decide⟩

theorem decodeDec_append (a : List Char) (c : Char) :
    decodeDec (a ++ [c]) = 10 * decodeDec a + decChar c := by
  simp [decodeDec, List.foldl_append]

theorem decChar_digitChar : ∀ n, n < 10 → decChar (Nat.digitChar n) = n := by decide

theorem decodeDec_natToDecAux : ∀ fuel n, n < fuel → decodeDec (natToDecAux fuel n) = n := by
  intro fuel
  induction fuel with
  | zero => intro n h; omega
  | succ fuel ih =>
    intro n h
    rw [natToDecAux]
    by_cases h10 : n < 10
    · simp only [h10, if_true]
      simpa [decodeDec] using decChar_digitChar n h10
    · have hdiv : n / 10 < n := Nat.div_lt_self (by omega) (by omega)
      simp only [h10, if_false, decodeDec_append]
      rw [ih (n / 10) (by omega), decChar_digitChar (n % 10) (Nat.mod_lt _ (by omega))]
      omega

theorem natToDec_inj {m n : Nat} (h : natToDec m = natToDec n) : m = n := by
  have hm := decodeDec_natToDecAux (m + 1) m (Nat.lt_succ_self m)
  have hn := decodeDec_natToDecAux (n + 1) n (Nat.lt_succ_self n)
  calc m = decodeDec (natToDec m) := hm.symm
    _ = decodeDec (natToDec n) := by rw [h]
    _ = n := hn

theorem slugCand_inj {base : List Char} {m n : Nat}
    (h : slugCand base m = slugCand base n) : m = n := by
  unfold slugCand at h
  exact natToDec_inj (List.cons.inj (List.append_cancel_left h)).2

theorem exists_fresh (base : List Char) (issued : List (List Char)) :
    ∃ k, k < issued.length + 1 ∧ slugCand base (1 + k) ∉ issued := by
  by_contra hc
  push_neg at hc
  have hinj : Function.Injective (fun k => slugCand base (1 + k)) := by
    intro a b hab
    have := slugCand_inj hab
    omega
  have hnd : ((List.range (issued.length + 1)).map
      (fun k => slugCand base (1 + k))).Nodup :=
    List.Nodup.map hinj (List.nodup_range _)
  have hsub : ((List.range (issued.length + 1)).map
      (fun k => slugCand base (1 + k))) ⊆ issued := by
    intro x hx
    rcases List.mem_map.1 hx with ⟨k, hk, rfl⟩
    exact hc k (List.mem_range.1 hk)
  have hlen := (List.subperm_of_subset hnd hsub).length_le
  simp at hlen

theorem allocGo_fresh (issued : List (List Char)) (base : List Char) :
    ∀ fuel n0, (∃ k, k < fuel ∧ slugCand base (n0 + k) ∉ issued) →
      allocGo issued base fuel n0 ∉ issued := by
  intro fuel
  induction fuel with
  | zero =>
    intro n0 h
    obtain ⟨k, hk, _⟩ := h
    omega
  | succ fuel ih =>
    intro n0 h
    obtain ⟨k, hk, hfree⟩ := h
    rw [allocGo]
    by_cases hmem : slugCand base n0 ∈ issued
    · rw [if_pos hmem]
      apply ih
      cases k with
      | zero =>
        exfalso
        simp only [Nat.add_zero] at hfree
        exact hfree hmem
      | succ k2 =>
        refine ⟨k2, by omega, ?_⟩
        have : n0 + 1 + k2 = n0 + (k2 + 1) := by omega
        rw [this]
        exact hfree
    · rw [if_neg hmem]
      exact hmem

theorem allocSlug_fresh (issued : List (List Char)) (base : List Char) :
    allocSlug issued base ∉ issued := by
  unfold allocSlug
  by_cases h : base ∈ issued
  · rw [if_pos h]
    exact allocGo_fresh issued base (issued.length + 1) 1 (exists_fresh base issued)
  · rw [if_neg h]
    exact h

theorem createArticle_some {rawTitle sec content : List Char} {issued : List (List Char)}
    {src : List Char} {hidx : Nat} {a : Article} {issued2 : List (List Char)}
    (h : createArticle rawTitle sec content issued src hidx = some (a, issued2)) :
    a.slug ∉ issued ∧ issued2 = issued ++ [a.slug] ∧ a.sec = sec ∧ a.src = src ∧
      a.hidx = hidx ∧ a.title = truncateTitle (cleanTitle rawTitle content) := by
  simp only [createArticle] at h
  by_cases hlen : (truncateTitle (cleanTitle rawTitle content)).length < 5
  · rw [if_pos hlen] at h
    cases h
  · rw [if_neg hlen] at h
    simp only [Option.some.injEq, Prod.mk.injEq] at h
    obtain ⟨ha, hs⟩ := h
    subst ha
    subst hs
    exact ⟨allocSlug_fresh _ _, rfl, rfl, rfl, rfl, rfl⟩

theorem truncateTitle_le (t : List Char) : (truncateTitle t).length ≤ 150 := by
  unfold truncateTitle
  by_cases h : 150 < t.length
  · rw [if_pos h, List.length_append, List.length_take]
    have h3 : ("...".data).length = 3 := rfl
    omega
  · rw [if_neg h]
    omega

theorem createArticle_title {rawTitle sec content : List Char} {issued : List (List Char)}
    {src : List Char} {hidx : Nat} {a : Article} {issued2 : List (List Char)}
    (h : createArticle rawTitle sec content issued src hidx = some (a, issued2)) :
    a.title.length ≤ 150 := by
  rw [(createArticle_some h).2.2.2.2.2]
  exact truncateTitle_le _

theorem parseLoop_state (secs : List (List Char)) (ns : List Node) (src : List Char) :
    ∀ todo issued,
      (parseLoop secs ns src todo issued).2 =
          issued ++ ((parseLoop secs ns src todo issued).1.map (fun a => a.slug)) ∧
        (∀ s ∈ (parseLoop secs ns src todo issued).1.map (fun a => a.slug), s ∉ issued) ∧
        ((parseLoop secs ns src todo issued).1.map (fun a => a.slug)).Nodup := by
  intro todo
  induction todo with
  | nil =>
    intro issued
    simp [parseLoop]
  | cons hd rest ih =>
    intro issued
    obtain ⟨i, p⟩ := hd
    simp only [parseLoop]
    split
    · exact ih issued
    · split
      · exact ih issued
      · split
        · split
          · rename_i a issued2 hca
            obtain ⟨hfresh, hext, _, _, _, _⟩ := createArticle_some hca
            obtain ⟨ihst, ihfr, ihnd⟩ := ih issued2
            subst hext
            refine ⟨?_, ?_, ?_⟩
            · simp only [List.map_cons]
              rw [ihst, List.append_assoc]
              rfl
            · intro s hs
              simp only [List.map_cons, List.mem_cons] at hs
              rcases hs with rfl | hs
              · exact hfresh
              · intro hsi
                exact ihfr s hs (by simp [hsi])
            · simp only [List.map_cons, List.nodup_cons]
              refine ⟨?_, ihnd⟩
              intro hmem
              exact ihfr a.slug hmem (by simp)
          · exact ih issued
        · exact ih issued

theorem parseHtmlFile_state (secs : List (List Char)) (b : List Node)
    (issued : List (List Char)) (src : List Char) :
    (parseHtmlFile secs b issued src).2 =
        issued ++ ((parseHtmlFile secs b issued src).1.map (fun a => a.slug)) ∧
      (∀ s ∈ (parseHtmlFile secs b issued src).1.map (fun a => a.slug), s ∉ issued) ∧
      ((parseHtmlFile secs b issued src).1.map (fun a => a.slug)).Nodup := by
  simp only [parseHtmlFile]
  exact parseLoop_state secs (removeScriptStyle b) src (headingIdxs (removeScriptStyle b)).enum issued

theorem runFiles_state (secs : List (List Char)) :
    ∀ fs issued,
      (runFiles secs fs issued).2 =
          issued ++ ((runFiles secs fs issued).1.map (fun a => a.slug)) ∧
        (∀ s ∈ (runFiles secs fs issued).1.map (fun a => a.slug), s ∉ issued) ∧
        ((runFiles secs fs issued).1.map (fun a => a.slug)).Nodup := by
  intro fs
  induction fs with
  | nil =>
    intro issued
    simp [runFiles]
  | cons f rest ih =>
    intro issued
    simp only [runFiles]
    split
    · split
      · exact ih issued
      · rename_i b hb
        obtain ⟨pst, pfr, pnd⟩ := parseHtmlFile_state secs b issued f.name
        obtain ⟨ihst, ihfr, ihnd⟩ := ih (parseHtmlFile secs b issued f.name).2
        refine ⟨?_, ?_, ?_⟩
        · simp only [List.map_append]
          rw [ihst, pst, List.append_assoc]
        · intro s hs
          simp only [List.map_append, List.mem_append] at hs
          rcases hs with hs | hs
          · exact pfr s hs
          · intro hsi
            exact ihfr s hs (by rw [pst]; exact List.mem_append_left _ hsi)
        · simp only [List.map_append]
          rw [List.nodup_append]
          refine ⟨pnd, ihnd, ?_⟩
          intro s hs1 hs2
          exact ihfr s hs2 (by rw [pst]; exact List.mem_append_right _ hs1)
    · exact ih issued

theorem allArticles_slug_nodup (inp : PackageInput) :
    ((allArticles inp).map (fun a => a.slug)).Nodup := by
  unfold allArticles
  exact (runFiles_state _ _ []).2.2

theorem dedupBySlug_eq_self : ∀ (l : List Article) (seen : List (List Char)),
    ((l.map (fun a => a.slug)).Nodup) → (∀ a ∈ l, a.slug ∉ seen) →
      dedupBySlug l seen = l := by
  intro l
  induction l with
  | nil =>
    intro seen _ _
    rfl
  | cons a rest ih =>
    intro seen hnd hdis
    simp only [List.map_cons, List.nodup_cons] at hnd
    rw [dedupBySlug, if_neg (hdis a (List.mem_cons_self a rest))]
    congr 1
    apply ih _ hnd.2
    intro b hb hmem
    simp only [List.mem_cons] at hmem
    rcases hmem with heq | hseen
    · exact hnd.1 (heq ▸ List.mem_map_of_mem (fun x => x.slug) hb)
    · exact hdis b (List.mem_cons_of_mem a hb) hseen

theorem mainResult_ok_eq {inp : PackageInput} {arts : List Article}
    (h : mainResult inp = Except.ok arts) : arts = allArticles inp := by
  unfold mainResult at h
  by_cases he : (allArticles inp).isEmpty
  · rw [if_pos he] at h
    cases h
  · rw [if_neg he] at h
    injection h with h2
    rw [← h2]
    apply dedupBySlug_eq_self _ _ (allArticles_slug_nodup inp)
    intro a _
    simp

theorem mainResult_error_iff (inp : PackageInput) :
    mainResult inp = Except.error () ↔ allArticles inp = [] := by
  unfold mainResult
  cases harts : allArticles inp with
  | nil => simp
  | cons a l => simp

theorem parseLoop_mem (secs : List (List Char)) (ns : List Node) (src : List Char) :
    ∀ todo issued a, a ∈ (parseLoop secs ns src todo issued).1 →
      ∃ p rest, ((a.hidx, p) :: rest) <:+ todo ∧
        a.src = src ∧
        a.sec = findSection ns secs p ∧
        5 ≤ (headingTextAt ns p).length ∧
        matchFullDate (headingTextAt ns p) = false ∧
        200 < (collectContent ns p (rest.head?.map (fun q => q.2))).length ∧
        a.title = truncateTitle (cleanTitle (headingTextAt ns p)
          (collectContent ns p (rest.head?.map (fun q => q.2)))) := by
  intro todo
  induction todo with
  | nil =>
    intro issued a ha
    simp [parseLoop] at ha
  | cons hd rest ih =>
    intro issued a ha
    obtain ⟨i, p⟩ := hd
    simp only [parseLoop] at ha
    by_cases h5 : (headingTextAt ns p).length < 5
    · rw [if_pos h5] at ha
      obtain ⟨q, rest2, hsuf, hrest⟩ := ih issued a ha
      exact ⟨q, rest2, hsuf.trans (List.suffix_cons (i, p) rest), hrest⟩
    · rw [if_neg h5] at ha
      by_cases hdate : matchFullDate (headingTextAt ns p) = true
      · rw [if_pos hdate] at ha
        obtain ⟨q, rest2, hsuf, hrest⟩ := ih issued a ha
        exact ⟨q, rest2, hsuf.trans (List.suffix_cons (i, p) rest), hrest⟩
      · rw [if_neg hdate] at ha
        by_cases hc : 200 <
            (collectContent ns p (rest.head?.map (fun q => q.2))).length
        · rw [if_pos hc] at ha
          cases hca : createArticle (headingTextAt ns p) (findSection ns secs p)
              (collectContent ns p (rest.head?.map (fun q => q.2))) issued src i with
          | none =>
            rw [hca] at ha
            obtain ⟨q, rest2, hsuf, hrest⟩ := ih issued a ha
            exact ⟨q, rest2, hsuf.trans (List.suffix_cons (i, p) rest), hrest⟩
          | some pr =>
            rw [hca] at ha
            simp only [List.mem_cons] at ha
            rcases ha with rfl | ha
            · obtain ⟨_, _, hsec, hsrc, hhidx, htitle⟩ := createArticle_some hca
              refine ⟨p, rest, ?_, hsrc, hsec, by omega, ?_, hc, htitle⟩
              · rw [hhidx]
              · simp only [Bool.not_eq_true] at hdate
                exact hdate
            · obtain ⟨q, rest2, hsuf, hrest⟩ := ih pr.2 a ha
              exact ⟨q, rest2, hsuf.trans (List.suffix_cons (i, p) rest), hrest⟩
        · rw [if_neg hc] at ha
          obtain ⟨q, rest2, hsuf, hrest⟩ := ih issued a ha
          exact ⟨q, rest2, hsuf.trans (List.suffix_cons (i, p) rest), hrest⟩

theorem parseLoop_hidx (secs : List (List Char)) (ns : List Node) (src : List Char) :
    ∀ todo issued,
      ((parseLoop secs ns src todo issued).1.map (fun a => a.hidx)).Sublist
        (todo.map Prod.fst) := by
  intro todo
  induction todo with
  | nil =>
    intro issued
    simp [parseLoop]
  | cons hd rest ih =>
    intro issued
    obtain ⟨i, p⟩ := hd
    simp only [parseLoop]
    by_cases h5 : (headingTextAt ns p).length < 5
    · rw [if_pos h5]
      exact (ih issued).cons i
    · rw [if_neg h5]
      by_cases hdate : matchFullDate (headingTextAt ns p) = true
      · rw [if_pos hdate]
        exact (ih issued).cons i
      · rw [if_neg hdate]
        by_cases hc : 200 <
            (collectContent ns p (rest.head?.map (fun q => q.2))).length
        · rw [if_pos hc]
          cases hca : createArticle (headingTextAt ns p) (findSection ns secs p)
              (collectContent ns p (rest.head?.map (fun q => q.2))) issued src i with
          | none => exact (ih issued).cons i
          | some pr =>
            obtain ⟨a1, is2⟩ := pr
            simp only [List.map_cons, List.map]
            have hhidx : a1.hidx = i := (createArticle_some hca).2.2.2.2.1
            rw [hhidx]
            exact (ih is2).cons₂ i
        · rw [if_neg hc]
          exact (ih issued).cons i

theorem parseHtmlFile_hidx (secs : List (List Char)) (b : List Node)
    (issued : List (List Char)) (src : List Char) :
    ((parseHtmlFile secs b issued src).1.map (fun a => a.hidx)).Pairwise (· < ·) := by
  simp only [parseHtmlFile]
  have hsub := parseLoop_hidx secs (removeScriptStyle b) src
    (headingIdxs (removeScriptStyle b)).enum issued
  rw [List.enum_map_fst] at hsub
  exact (List.pairwise_lt_range _).sublist hsub

theorem parseHtmlFile_src (secs : List (List Char)) (b : List Node)
    (issued : List (List Char)) (src : List Char) :
    ∀ a ∈ (parseHtmlFile secs b issued src).1, a.src = src := by
  intro a ha
  simp only [parseHtmlFile] at ha
  obtain ⟨_, _, _, hsrc, _⟩ := parseLoop_mem secs (removeScriptStyle b) src _ issued a ha
  exact hsrc

theorem runFiles_pieces (secs : List (List Char)) :
    ∀ fs issued, ∃ pieces : List (List Article),
      (runFiles secs fs issued).1 = pieces.flatten ∧
      List.Forall₂
        (fun piece f => (∀ a ∈ piece, a.src = f.name) ∧
          (piece.map (fun a => a.hidx)).Pairwise (· < ·))
        pieces fs := by
  intro fs
  induction fs with
  | nil =>
    intro issued
    exact ⟨[], rfl, List.Forall₂.nil⟩
  | cons f rest ih =>
    intro issued
    simp only [runFiles]
    by_cases hcheck : economistCheck f.raw = true
    · rw [if_pos hcheck]
      cases hb : f.body with
      | none =>
        obtain ⟨pieces, hjoin, hall⟩ := ih issued
        exact ⟨[] :: pieces, by simpa using hjoin,
          List.Forall₂.cons ⟨(by intro a ha; cases ha), by simp⟩ hall⟩
      | some b =>
        obtain ⟨pieces, hjoin, hall⟩ := ih (parseHtmlFile secs b issued f.name).2
        refine ⟨(parseHtmlFile secs b issued f.name).1 :: pieces, ?_, ?_⟩
        · dsimp only
          rw [List.flatten_cons, hjoin]
        · exact List.Forall₂.cons
            ⟨parseHtmlFile_src secs b issued f.name, parseHtmlFile_hidx secs b issued f.name⟩
            hall
    · rw [if_neg hcheck]
      obtain ⟨pieces, hjoin, hall⟩ := ih issued
      exact ⟨[] :: pieces, by simpa using hjoin,
        List.Forall₂.cons ⟨(by intro a ha; cases ha), by simp⟩ hall⟩

theorem runFiles_origin (secs : List (List Char)) :
    ∀ fs issued a, a ∈ (runFiles secs fs issued).1 →
      ∃ f, f ∈ fs ∧ economistCheck f.raw = true ∧ a.src = f.name ∧
        ∃ b, f.body = some b ∧
          ∃ p rest,
            ((a.hidx, p) :: rest) <:+ (headingIdxs (removeScriptStyle b)).enum ∧
            a.sec = findSection (removeScriptStyle b) secs p ∧
            5 ≤ (headingTextAt (removeScriptStyle b) p).length ∧
            matchFullDate (headingTextAt (removeScriptStyle b) p) = false ∧
            200 < (collectContent (removeScriptStyle b) p
              (rest.head?.map (fun q => q.2))).length ∧
            a.title = truncateTitle (cleanTitle (headingTextAt (removeScriptStyle b) p)
              (collectContent (removeScriptStyle b) p (rest.head?.map (fun q => q.2)))) := by
  intro fs
  induction fs with
  | nil =>
    intro issued a ha
    simp [runFiles] at ha
  | cons f rest ih =>
    intro issued a ha
    simp only [runFiles] at ha
    by_cases hcheck : economistCheck f.raw = true
    · rw [if_pos hcheck] at ha
      cases hb : f.body with
      | none =>
        rw [hb] at ha
        dsimp only at ha
        obtain ⟨g, hg, hrest⟩ := ih issued a ha
        exact ⟨g, List.mem_cons_of_mem f hg, hrest⟩
      | some b =>
        rw [hb] at ha
        dsimp only at ha
        rw [List.mem_append] at ha
        rcases ha with ha | ha
        · simp only [parseHtmlFile] at ha
          obtain ⟨p, r2, hsuf, hsrc, hsec, h5, hdate, hc, htitle⟩ :=
            parseLoop_mem secs (removeScriptStyle b) f.name _ issued a ha
          exact ⟨f, List.mem_cons_self f rest, hcheck, hsrc, b, hb, p, r2, hsuf,
            hsec, h5, hdate, hc, htitle⟩
        · obtain ⟨g, hg, hrest⟩ := ih _ a ha
          exact ⟨g, List.mem_cons_of_mem f hg, hrest⟩
    · rw [if_neg hcheck] at ha
      obtain ⟨g, hg, hrest⟩ := ih issued a ha
      exact ⟨g, List.mem_cons_of_mem f hg, hrest⟩

theorem mem_insertByName {f g : EpubFile} :
    ∀ l, g ∈ insertByName f l ↔ g = f ∨ g ∈ l := by
  intro l
  induction l with
  | nil => simp [insertByName]
  | cons h rest ih =>
    rw [insertByName]
    by_cases hlt : nameLt h.name f.name = true
    · rw [if_pos hlt]
      simp only [List.mem_cons, ih]
      tauto
    · rw [if_neg hlt]
      simp only [List.mem_cons]

theorem mem_sortFiles {g : EpubFile} : ∀ l, g ∈ sortFiles l ↔ g ∈ l := by
  intro l
  induction l with
  | nil => simp [sortFiles]
  | cons f rest ih =>
    rw [sortFiles, mem_insertByName]
    simp only [List.mem_cons, ih]

theorem mem_orderedFiles {inp : PackageInput} {f : EpubFile} (h : f ∈ orderedFiles inp) :
    f ∈ inp.files ∧ eligibleFile f = true := by
  unfold orderedFiles at h
  rw [mem_sortFiles] at h
  exact ⟨List.mem_of_mem_filter h, List.of_mem_filter h⟩

theorem allArticles_title_le (inp : PackageInput) :
    ∀ a ∈ allArticles inp, a.title.length ≤ 150 := by
  intro a ha
  obtain ⟨f, _, _, _, b, _, p, r2, _, _, _, _, _, htitle⟩ :=
    runFiles_origin (extractTocStructure inp.toc) (orderedFiles inp) [] a ha
  rw [htitle]
  exact truncateTitle_le _

/-- C1 (amended): the emitted article sequence of a successful run is the
concatenation, over the eligible files in sorted-file-name processing order,
of per-document article lists, and each per-document list carries that
document's name and strictly increasing heading indices (document-internal
order).  The declared spine plays no role. -/
theorem c1_emission_order (inp : PackageInput) (arts : List Article)
    (h : mainResult inp = Except.ok arts) :
    ∃ pieces : List (List Article),
      arts = pieces.flatten ∧
      List.Forall₂
        (fun piece f => (∀ a ∈ piece, a.src = f.name) ∧
          (piece.map (fun a => a.hidx)).Pairwise (· < ·))
        pieces (orderedFiles inp) := by
  have he := mainResult_ok_eq h
  subst he
  exact runFiles_pieces (extractTocStructure inp.toc) (orderedFiles inp) []

/-- Witness for C1 (amended) at the concrete package `c1pkg`. -/
theorem c1_emission_order_witness :
    ∃ pieces : List (List Article),
      allArticles c1pkg = pieces.flatten ∧
      List.Forall₂
        (fun piece f => (∀ a ∈ piece, a.src = f.name) ∧
          (piece.map (fun a => a.hidx)).Pairwise (· < ·))
        pieces (orderedFiles c1pkg) :=
  c1_emission_order c1pkg (allArticles c1pkg) (by rfl)

/-- C2: in every successful run no two emitted articles share a slug, and in
the concrete run with the title `Greenback danger` appearing twice the two
articles receive the slugs `greenback-danger` and `greenback-danger-1`. -/
theorem c2_slug_uniqueness :
    (∀ (inp : PackageInput) (arts : List Article), mainResult inp = Except.ok arts →
        arts.Pairwise (fun a b => a.slug ≠ b.slug)) ∧
      (allArticles gbPkg).map (fun a => a.slug) =
        [("greenback-danger".data), ("greenback-danger-1".data)] := by
  constructor
  · intro inp arts h
    have he := mainResult_ok_eq h
    subst he
    exact List.pairwise_map.mp (allArticles_slug_nodup inp)
  · decide

/-- Witness for C2 at the concrete package `gbPkg`. -/
theorem c2_slug_uniqueness_witness :
    (dedupBySlug (allArticles gbPkg) []).Pairwise (fun a b => a.slug ≠ b.slug) :=
  c2_slug_uniqueness.1 gbPkg (dedupBySlug (allArticles gbPkg) []) (by rfl)

/-- C3 (amended): the section of every article emitted from a document is
computed by `find_section_for_heading` on that document's own nodes and the
toc section list alone — the parse takes no section state from other
documents (its only threaded state is the slug registry), and a heading with
no marker gets the empty section. -/
theorem c3_section_locality (secs : List (List Char)) (b : List Node)
    (issued : List (List Char)) (src : List Char) :
    ∀ a ∈ (parseHtmlFile secs b issued src).1,
      ∃ p rest, ((a.hidx, p) :: rest) <:+ (headingIdxs (removeScriptStyle b)).enum ∧
        a.sec = findSection (removeScriptStyle b) secs p := by
  intro a ha
  simp only [parseHtmlFile] at ha
  obtain ⟨p, r2, hsuf, _, hsec, _⟩ :=
    parseLoop_mem secs (removeScriptStyle b) src _ issued a ha
  exact ⟨p, r2, hsuf, hsec⟩

/-- Witness for C3 (amended) at the concrete single-document parse. -/
theorem c3_section_locality_witness :
    ∃ p rest, ((c5art.hidx, p) :: rest) <:+ (headingIdxs (removeScriptStyle c5body)).enum ∧
      c5art.sec = findSection (removeScriptStyle c5body) [] p :=
  c3_section_locality [] c5body [] ("w.html".data) c5art (by decide)

/-- C4 (amended): a successful run performs no section filtering at all — its
output is exactly the list of extracted articles (the slug deduplication is
the identity because slugs are unique within a run), whatever their
sections. -/
theorem c4_no_section_filter (inp : PackageInput) (arts : List Article)
    (h : mainResult inp = Except.ok arts) : arts = allArticles inp :=
  mainResult_ok_eq h

/-- Witness for C4 (amended) at the concrete package `c4pkg`. -/
theorem c4_no_section_filter_witness :
    dedupBySlug (allArticles c4pkg) [] = allArticles c4pkg :=
  c4_no_section_filter c4pkg (dedupBySlug (allArticles c4pkg) []) (by rfl)

/-- C5: every emitted article originates from a heading whose visible text is
nonempty — in fact at least 5 characters — and whose collected body content
is longer than 200 characters; a heading with empty text, or one whose
content (for instance between two adjacent headings) falls at or below the
threshold, silently produces no article, and the parse is a total function
with no error outcome. -/
theorem c5_skip_conditions (secs : List (List Char)) (b : List Node)
    (issued : List (List Char)) (src : List Char) :
    ∀ a ∈ (parseHtmlFile secs b issued src).1,
      ∃ p rest, ((a.hidx, p) :: rest) <:+ (headingIdxs (removeScriptStyle b)).enum ∧
        headingTextAt (removeScriptStyle b) p ≠ [] ∧
        5 ≤ (headingTextAt (removeScriptStyle b) p).length ∧
        200 < (collectContent (removeScriptStyle b) p
          (rest.head?.map (fun q => q.2))).length := by
  intro a ha
  simp only [parseHtmlFile] at ha
  obtain ⟨p, r2, hsuf, _, _, h5, _, hc, _⟩ :=
    parseLoop_mem secs (removeScriptStyle b) src _ issued a ha
  refine ⟨p, r2, hsuf, ?_, h5, hc⟩
  intro hnil
  rw [hnil] at h5
  simp at h5

/-- Witness for C5 at the concrete single-document parse. -/
theorem c5_skip_conditions_witness :
    ∃ p rest, ((c5art.hidx, p) :: rest) <:+ (headingIdxs (removeScriptStyle c5body)).enum ∧
      headingTextAt (removeScriptStyle c5body) p ≠ [] ∧
      5 ≤ (headingTextAt (removeScriptStyle c5body) p).length ∧
      200 < (collectContent (removeScriptStyle c5body) p
        (rest.head?.map (fun q => q.2))).length :=
  c5_skip_conditions [] c5body [] ("w.html".data) c5art (by decide)

/-- C8 (amended): with no toc file the resolver returns the empty section
list, but this is not what aborts the run — the run fails exactly when zero
articles are extracted, whatever the toc. -/
theorem c8_fatal_on_zero_articles (inp : PackageInput) :
    (inp.toc = none → extractTocStructure inp.toc = []) ∧
      (mainResult inp = Except.error () ↔ allArticles inp = []) := by
  constructor
  · intro h
    rw [h]
    rfl
  · exact mainResult_error_iff inp

/-- Witness for C8 (amended) at the concrete package `c1pkg`. -/
theorem c8_fatal_on_zero_articles_witness :
    extractTocStructure c1pkg.toc = [] ∧
      (mainResult c1pkg = Except.error () ↔ allArticles c1pkg = []) :=
  ⟨(c8_fatal_on_zero_articles c1pkg).1 rfl, (c8_fatal_on_zero_articles c1pkg).2⟩

/-- C9: every article of a successful run has a title of at most 150
characters, and whenever the cleaned title exceeds 150 characters the created
article's title is its first 147 characters followed by `...`. -/
theorem c9_title_truncation :
    (∀ (inp : PackageInput) (arts : List Article) (a : Article),
        mainResult inp = Except.ok arts → a ∈ arts → a.title.length ≤ 150) ∧
      (∀ (rawTitle sec content : List Char) (issued : List (List Char))
          (src : List Char) (hidx : Nat),
          150 < (cleanTitle rawTitle content).length →
          ∃ a issued2,
            createArticle rawTitle sec content issued src hidx = some (a, issued2) ∧
            a.title = (cleanTitle rawTitle content).take 147 ++ ("...".data)) := by
  constructor
  · intro inp arts a h ha
    have he := mainResult_ok_eq h
    subst he
    exact allArticles_title_le inp a ha
  · intro rawTitle sec content issued src hidx hlong
    have htr : truncateTitle (cleanTitle rawTitle content) =
        (cleanTitle rawTitle content).take 147 ++ ("...".data) := by
      unfold truncateTitle
      rw [if_pos hlong]
    have hlen : (truncateTitle (cleanTitle rawTitle content)).length = 150 := by
      rw [htr, List.length_append, List.length_take]
      have h3 : ("...".data).length = 3 := rfl
      omega
    refine ⟨{ title := truncateTitle (cleanTitle rawTitle content),
              slug := allocSlug issued (slugOf (truncateTitle (cleanTitle rawTitle content))),
              path := ("articles/".data) ++
                allocSlug issued (slugOf (truncateTitle (cleanTitle rawTitle content))) ++
                (".html".data),
              sec := sec, src := src, hidx := hidx },
      issued ++ [allocSlug issued (slugOf (truncateTitle (cleanTitle rawTitle content)))],
      ?_, htr⟩
    simp only [createArticle]
    rw [if_neg (by omega)]

/-- Witness for C9 at a concrete 160-character title. -/
theorem c9_title_truncation_witness :
    ∃ a issued2,
      createArticle longTitle [] [] [] [] 0 = some (a, issued2) ∧
      a.title = (cleanTitle longTitle []).take 147 ++ ("...".data) :=
  c9_title_truncation.2 longTitle [] [] [] [] 0 (by decide)

/-- C10: a file whose raw text contains neither `The Economist` nor
`economist.com` contributes no article to the run: no extracted article
carries its name (file names assumed distinct). -/
theorem c10_economist_gate (inp : PackageInput) (f : EpubFile)
    (hf : f ∈ inp.files)
    (hnd : (inp.files.map (fun g => g.name)).Nodup)
    (hno : economistCheck f.raw = false) :
    ∀ a ∈ allArticles inp, a.src ≠ f.name := by
  intro a ha heq
  obtain ⟨g, hg, hcheck, hsrc, _⟩ :=
    runFiles_origin (extractTocStructure inp.toc) (orderedFiles inp) [] a ha
  have hgf : g ∈ inp.files := (mem_orderedFiles hg).1
  have hgn : g.name = f.name := by rw [← hsrc, heq]
  have hgeq : g = f := List.inj_on_of_nodup_map hnd hgf hf hgn
  rw [hgeq, hno] at hcheck
  cases hcheck

/-- Witness for C10 at the concrete package `c10pkg` and its extracted
article. -/
theorem c10_economist_gate_witness : c10art.src ≠ c10bad.name :=
  c10_economist_gate c10pkg c10bad (by decide) (by decide) (by decide)
    c10art (by decide)

end Process
